import Mathlib

/-!
# Verification of the mcp_server_gdb GDB/MI session engine

A shallow embedding of the parts of `mcp_server_gdb` (Rust) that the
specification's checked claims are about:

* `src/mi/commands.rs` — the MI command encoder (`MiCommand`,
  `write_interpreter_string`, `delete_breakpoints`, `BreakPointNumber`);
* `src/mi/mod.rs` — the session engine (`GDB::execute`, token matching,
  busy guard);
* `src/mi/output.rs` — the nom-based MI output parser and the reader task
  `process_output` (its per-line state update);
* `src/models.rs` — `Address` display/parse and `MemoryMapping` parsing;
* `src/gdb.rs` — `GDBManager::close_session` and `send_command`.

Rust machine integers are modelled as `Nat` with explicit bounds where
overflow or parse failure matters. Fallible code returns `Except`/`Option`.
Parsers are modelled in nom's style as functions
`List Char → Option (List Char × α)` (remaining input and value); `alt`
tries alternatives in order, and sequences do not backtrack into an
earlier alternative once it has succeeded — exactly nom's behaviour for
the deterministic grammar at hand. Recursive grammar productions
(`json_value`) take a fuel argument; each recursive descent consumes at
least one input character, so fuel `≥` input length reproduces the Rust
behaviour.
-/

namespace McpServerGdb

/-! ## Error type (`src/error.rs`, extended by the variants the session
engine in `src/mi/mod.rs` constructs — `GDBBusy`, `InvalidArgument` — and
the taxonomy of spec §7). -/

inductive AppError where
  | gdbError (msg : String)
  | parseError (msg : String)
  | ioError (msg : String)
  | notFound (msg : String)
  | internalServerError (msg : String)
  | gdbBusy
  | gdbTimeout
  | gdbQuit
  | invalidArgument (msg : String)
  deriving Repr, DecidableEq

/-- Is this error an `InvalidArgument`? (observer used to state claims) -/
def AppError.isInvalidArgument : AppError → Bool
  | .invalidArgument _ => true
  | _ => false

/-- Is this error a `GDBError`? -/
def AppError.isGDBError : AppError → Bool
  | .gdbError _ => true
  | _ => false

/-- Did the call fail with an `InvalidArgument` error? -/
def exceptIsInvalidArgument : Except AppError α → Bool
  | .error e => e.isInvalidArgument
  | .ok _ => false

/-- Did the call fail with a `GDBError` error? -/
def exceptIsGDBError : Except AppError α → Bool
  | .error e => e.isGDBError
  | .ok _ => false

/-! ## MI command values (`src/mi/commands.rs`)

`MiCommand` carries a static operation name and optional option/parameter
lists (`Option<Vec<OsString>>` in the source; `OsString`s are modelled as
`String`, which agrees byte-for-byte on the ASCII arguments every
constructor in the source produces). -/

structure MiCommand where
  operation : String
  options : Option (List String) := none
  parameters : Option (List String) := none
  deriving Repr, DecidableEq

/-- The Rust loop `for arg in args { command.push(" "); command.push(arg) }`
appearing twice in `write_interpreter_string`. -/
def appendArgs (command : String) (args : List String) : String :=
  args.foldl (fun acc arg => acc ++ " " ++ arg) command

/-- `MiCommand::write_interpreter_string` (commands.rs:91-125) rendered as
the pure string written to the child's stdin: the Rust code builds the
line by successive `push`es into an `OsString` and then writes it. -/
def MiCommand.writeInterpreterString (cmd : MiCommand) (token : Nat) : String :=
  let command := if cmd.operation ≠ "" then s!"{token}-{cmd.operation}" else ""
  let command := match cmd.options with
    | some options => appendArgs command options
    | none => command
  let command := match cmd.parameters with
    | some parameters =>
      let command := if cmd.options.isSome then command ++ " --" else command
      appendArgs command parameters
    | none => command
  command ++ "\n"

/-- Each list entry preceded by a single space, concatenated. -/
def spaceSeparated (items : List String) : String :=
  items.foldr (fun item acc => " " ++ item ++ acc) ""

/-- The wire format as claim C5 words it: the token/operation head when
the operation is non-empty, each option preceded by a space, the ` --`
separator exactly when both the options and the parameters fields exist,
each parameter preceded by a space, and a terminating line break. -/
def claimedWireLine (cmd : MiCommand) (token : Nat) : String :=
  (if cmd.operation ≠ "" then s!"{token}-{cmd.operation}" else "")
    ++ spaceSeparated (cmd.options.getD [])
    ++ (if cmd.options.isSome ∧ cmd.parameters.isSome then " --" else "")
    ++ spaceSeparated (cmd.parameters.getD [])
    ++ "\n"

/-- `MiCommand::empty` (commands.rs:500-505): the flush command. -/
def MiCommand.empty : MiCommand := { operation := "" }

/-- `MiCommand::thread_info` (commands.rs:396-406). -/
def MiCommand.thread_info (thread_id : Option Nat) : MiCommand :=
  { operation := "thread-info"
    options := match thread_id with
      | some id => some [toString id]
      | none => none
    parameters := none }

/-! ## Parsed MI records (`src/mi/output.rs`, lines 18-95) -/

inductive ResultClass where
  | done
  | running
  | connected
  | error
  | exit
  deriving Repr, DecidableEq

inductive BreakPointEvent where
  | created
  | deleted
  | modified
  deriving Repr, DecidableEq

inductive ThreadEvent where
  | created
  | groupStarted
  | exited
  | groupExited
  | selected
  deriving Repr, DecidableEq

inductive AsyncClass where
  | running
  | stopped
  | cmdParamChanged
  | libraryLoaded
  | thread (e : ThreadEvent)
  | breakPoint (e : BreakPointEvent)
  | other (msg : String)
  deriving Repr, DecidableEq

inductive AsyncKind where
  | exec
  | status
  | notify
  deriving Repr, DecidableEq

inductive StreamKind where
  | console
  | target
  | log
  deriving Repr, DecidableEq

/-- The generic parsed value tree, the image of `serde_json::Value` as the
parser builds it (only strings, objects and arrays occur). -/
inductive Value where
  | str (s : String)
  | obj (fields : List (String × Value))
  | arr (elems : List Value)
  deriving Repr

structure ResultRecord where
  token : Option Nat
  «class» : ResultClass
  results : Value
  deriving Repr

inductive OutOfBandRecord where
  | asyncRecord (token : Option Nat) (kind : AsyncKind) («class» : AsyncClass)
      (results : Value)
  | streamRecord (kind : StreamKind) (data : String)
  deriving Repr

inductive Output where
  | result (r : ResultRecord)
  | outOfBand (r : OutOfBandRecord)
  | gdbLine
  | somethingElse (s : String)
  deriving Repr

/-! ## The session engine (`src/mi/mod.rs`)

`GDB::execute` is modelled as a step function over the session state it
touches: the `is_running` flag (written by the reader task), the token
counter (`current_command_token`; `new_token` returns the old value and
increments, like `fetch_add`), and — to make "what was written to the
child's stdin" observable — the list of lines written so far. The result
channel is the list of result records the reader task will deliver, in
order. -/

structure GDBState where
  isRunning : Bool
  currentCommandToken : Nat
  writtenStdin : List String
  deriving Repr, DecidableEq

/-- The `match record.token { ... }` arm of `GDB::execute`
(mi/mod.rs:244-261): a record token equal to the command token is
accepted; a present but different token is an `InvalidArgument`; a
missing token is accepted only for an empty (flush) operation and is a
`GDBError` otherwise. -/
def GDB.matchResultToken (operation : String) (commandToken : Nat)
    (record : ResultRecord) : Except AppError ResultRecord :=
  match record.token with
  | some token =>
    if token = commandToken then .ok record
    else .error (.invalidArgument s!"Unexpected command token: {token}")
  | none =>
    if operation = "" then .ok record
    else .error (.gdbError s!"No command token, expecting {commandToken}")

/-- `GDB::execute` (mi/mod.rs:219-264). Returns the call's result together
with the new session state and what is left of the result channel. -/
def GDB.execute (st : GDBState) (command : MiCommand)
    (resultChannel : List ResultRecord) :
    Except AppError ResultRecord × GDBState × List ResultRecord :=
  if st.isRunning then (.error .gdbBusy, st, resultChannel)
  else
    let commandToken := st.currentCommandToken
    let st := { st with
      currentCommandToken := st.currentCommandToken + 1
      writtenStdin :=
        st.writtenStdin ++ [command.writeInterpreterString commandToken] }
    match resultChannel with
    | [] => (.error (.gdbError "no result, expecting \x7b\x7d"), st, [])
    | record :: rest =>
      (GDB.matchResultToken command.operation commandToken record, st, rest)

/-! ## The MI output grammar (`src/mi/output.rs`, lines 169-479)

The source uses nom 8 `complete` combinators over `&str`. A parser is
modelled as `List Char → Option (List Char × α)`: `none` is a nom parse
error, `some (rest, a)` success with unread input `rest`. `alt` tries its
alternatives in order and a sequence never backtracks into an alternative
that already succeeded, exactly as in nom. -/

abbrev MiParser (α : Type) : Type := List Char → Option (List Char × α)

namespace MiOutput

/-- nom `map`. -/
def pmap (p : MiParser α) (f : α → β) : MiParser β := fun input =>
  (p input).map (fun ra => (ra.1, f ra.2))

/-- nom `value`. -/
def pvalue (a : α) (p : MiParser β) : MiParser α := pmap p (fun _ => a)

/-- Sequencing, as in a nom parser tuple. -/
def pand (p : MiParser α) (q : MiParser β) : MiParser (α × β) := fun input =>
  (p input).bind (fun ra => (q ra.1).map (fun rb => (rb.1, (ra.2, rb.2))))

/-- nom `alt`: first alternative to succeed wins. -/
def alt (ps : List (MiParser α)) : MiParser α := fun input =>
  ps.foldr (fun p acc => match p input with | some r => some r | none => acc) none

/-- nom `opt`. -/
def popt (p : MiParser α) : MiParser (Option α) := fun input =>
  match p input with
  | some (rest, a) => some (rest, some a)
  | none => some (input, none)

/-- nom `tag`. -/
def tag (s : String) : MiParser String := fun input =>
  if s.toList.isPrefixOf input then some (input.drop s.toList.length, s) else none

/-- nom `char`. -/
def charE (c : Char) : MiParser Char := fun input =>
  match input with
  | c' :: rest => if c' = c then some (rest, c) else none
  | [] => none

/-- nom `preceded`. -/
def preceded (p : MiParser α) (q : MiParser β) : MiParser β :=
  pmap (pand p q) (fun pr => pr.2)

/-- nom `delimited`. -/
def delimited (l : MiParser α) (p : MiParser β) (r : MiParser γ) : MiParser β :=
  pmap (pand l (pand p r)) (fun pr => pr.2.1)

/-- nom `separated_pair`. -/
def separated_pair (p : MiParser α) (sep : MiParser β) (q : MiParser γ) :
    MiParser (α × γ) :=
  pmap (pand p (pand sep q)) (fun pr => (pr.1, pr.2.2))

/-- nom `verify`. -/
def pverify (p : MiParser α) (cond : α → Bool) : MiParser α := fun input =>
  match p input with
  | some (rest, a) => if cond a then some (rest, a) else none
  | none => none

/-- nom `map_opt`. -/
def pmapOpt (p : MiParser α) (f : α → Option β) : MiParser β := fun input =>
  match p input with
  | some (rest, a) =>
    match f a with
    | some b => some (rest, b)
    | none => none
  | none => none

/-- nom `digit1`. -/
def digit1 : MiParser (List Char) := fun input =>
  let ds := input.takeWhile (fun c => c.isDigit)
  if ds.isEmpty then none else some (input.drop ds.length, ds)

/-- nom `is_not`: one or more characters not in the given set. -/
def isNot (set : List Char) : MiParser (List Char) := fun input =>
  let cs := input.takeWhile (fun c => ¬ set.contains c)
  if cs.isEmpty then none else some (input.drop cs.length, cs)

/-- nom `multispace1`: one or more of space, tab, carriage return, newline. -/
def multispace1 : MiParser (List Char) := fun input =>
  let cs := input.takeWhile (fun c => c = ' ' ∨ c = '\t' ∨ c = '\r' ∨ c = '\n')
  if cs.isEmpty then none else some (input.drop cs.length, cs)

/-- nom `take_while_m_n`. -/
def takeWhileMN (m n : Nat) (cond : Char → Bool) : MiParser (List Char) :=
  fun input =>
  let cs := (input.takeWhile cond).take n
  if m ≤ cs.length then some (input.drop cs.length, cs) else none

/-- nom `complete::line_ending`: `\n` or `\r\n`, nothing else. -/
def line_ending : MiParser Unit := fun input =>
  match input with
  | '\n' :: rest => some (rest, ())
  | '\r' :: '\n' :: rest => some (rest, ())
  | _ => none

/-- nom `many0`, with fuel standing in for nom's unbounded loop; like nom,
an iteration that consumes nothing aborts the parse. -/
def many0 (p : MiParser α) : Nat → MiParser (List α)
  | 0 => fun _ => none
  | fuel + 1 => fun input =>
    match p input with
    | none => some (input, [])
    | some (rest, a) =>
      if rest.length = input.length then none
      else
        match many0 p fuel rest with
        | some (rest', as_) => some (rest', a :: as_)
        | none => none

/-- The loop of nom `separated_list0` (the first element has already been
parsed); like nom, a separator match that consumes nothing aborts, and a
failing element parse backtracks to before the separator. -/
def sepList0Loop (sep : MiParser β) (p : MiParser α) :
    Nat → List Char → List α → Option (List Char × List α)
  | 0, _, _ => none
  | fuel + 1, input, acc =>
    match sep input with
    | none => some (input, acc.reverse)
    | some (rest1, _) =>
      if rest1.length = input.length then none
      else
        match p rest1 with
        | none => some (input, acc.reverse)
        | some (rest2, a) => sepList0Loop sep p fuel rest2 (a :: acc)

/-- nom `separated_list0`. -/
def sepList0 (sep : MiParser β) (p : MiParser α) (fuel : Nat) :
    MiParser (List α) := fun input =>
  match p input with
  | none => some (input, [])
  | some (rest, a) => sepList0Loop sep p fuel rest [a]

/-- `result_class` (output.rs:184-193). -/
def result_class : MiParser ResultClass :=
  alt
    [ pvalue .done (tag "done")
    , pvalue .running (tag "running")
    , pvalue .connected (tag "connected")
    , pvalue .error (tag "error")
    , pvalue .exit (tag "exit") ]

/-- `char::is_ascii_hexdigit`. -/
def isHexDigitChar (c : Char) : Bool :=
  c.isDigit ∨ ('a' ≤ c ∧ c ≤ 'f') ∨ ('A' ≤ c ∧ c ≤ 'F')

/-- Numeric value of a hexadecimal digit character. -/
def hexDigitVal (c : Char) : Nat :=
  if c.isDigit then c.toNat - '0'.toNat
  else if 'a' ≤ c ∧ c ≤ 'f' then c.toNat - 'a'.toNat + 10
  else c.toNat - 'A'.toNat + 10

/-- `unicode` (output.rs:198-209): `u{XXXX}` with 1-6 hex digits, failing
on scalar values `char::from_u32` rejects. -/
def unicode : MiParser Char :=
  pmapOpt
    (preceded (charE 'u')
      (delimited (charE '{') (takeWhileMN 1 6 isHexDigitChar) (charE '}')))
    (fun hex =>
      let n := hex.foldl (fun acc c => 16 * acc + hexDigitVal c) 0
      if n.isValidChar then some (Char.ofNat n) else none)

/-- `escaped_char` (output.rs:212-228). -/
def escaped_char : MiParser Char :=
  preceded (charE '\\')
    (alt
      [ unicode
      , pvalue '\n' (charE 'n')
      , pvalue '\r' (charE 'r')
      , pvalue '\t' (charE 't')
      , pvalue '\u0008' (charE 'b')
      , pvalue '\u000C' (charE 'f')
      , pvalue '\\' (charE '\\')
      , pvalue '/' (charE '/')
      , pvalue '"' (charE '"') ])

/-- `escaped_whitespace` (output.rs:232-234). -/
def escaped_whitespace : MiParser (List Char) :=
  preceded (charE '\\') multispace1

/-- `literal` (output.rs:237-241). -/
def literal : MiParser (List Char) :=
  pverify (isNot ['"', '\\']) (fun s => ¬ s.isEmpty)

/-- `StringFragment` (output.rs:247-251). -/
inductive StringFragment where
  | lit (s : List Char)
  | escapedChar (c : Char)
  | escapedWS
  deriving Repr

/-- `parse_fragment` (output.rs:255-262). -/
def parse_fragment : MiParser StringFragment :=
  alt
    [ pmap literal .lit
    , pmap escaped_char .escapedChar
    , pvalue .escapedWS escaped_whitespace ]

/-- The `fold(0.., parse_fragment, …)` loop of `string` (output.rs:266-277);
fuelled like `many0`, with nom's same no-progress guard. -/
def stringBody : Nat → List Char → String → Option (List Char × String)
  | 0, _, _ => none
  | fuel + 1, input, acc =>
    match parse_fragment input with
    | none => some (input, acc)
    | some (rest, frag) =>
      if rest.length = input.length then none
      else
        let acc := match frag with
          | .lit s => acc ++ String.mk s
          | .escapedChar c => acc.push c
          | .escapedWS => acc
        stringBody fuel rest acc

/-- `string` (output.rs:266-277): a double-quoted c-string. -/
def string (fuel : Nat) : MiParser String :=
  delimited (charE '"') (fun input => stringBody fuel input "") (charE '"')

/-- `to_map` (output.rs:279-281): `serde_json::Map::from_iter`, i.e. a
`BTreeMap` built by inserting each pair in order — keys are kept sorted
and a repeated key overwrites the earlier value. -/
def mapInsert : List (String × Value) → String → Value → List (String × Value)
  | [], k, v => [(k, v)]
  | (k', v') :: rest, k, v =>
    if k < k' then (k, v) :: (k', v') :: rest
    else if k = k' then (k, v) :: rest
    else (k', v') :: mapInsert rest k v

def to_map (l : List (String × Value)) : List (String × Value) :=
  l.foldl (fun m kv => mapInsert m kv.1 kv.2) []

/-- `to_list` (output.rs:283-287): keep the values, discard the keys. -/
def to_list (l : List (String × Value)) : List Value :=
  l.map (fun kv => kv.2)

mutual

/-- `json_value` / `buggy_gdb_list_in_result` / `key_value`
(output.rs:289-333), fuelled for the grammar recursion (every descent
consumes at least one character, so fuel `≥` input length is enough). -/
def json_value : Nat → MiParser Value
  | 0 => fun _ => none
  | fuel + 1 =>
    alt
      [ pmap (string fuel) .str
      , pmap (delimited (charE '{') (sepList0 (charE ',') (key_value fuel) fuel)
          (charE '}')) (fun results => .obj (to_map results))
      , pmap (delimited (charE '[') (sepList0 (charE ',') (json_value fuel) fuel)
          (charE ']')) (fun values => .arr values)
      , pmap (delimited (charE '[') (sepList0 (charE ',') (key_value fuel) fuel)
          (charE ']')) (fun values => .arr (to_list values)) ]

/-- see `json_value`. -/
def buggy_gdb_list_in_result : Nat → MiParser Value
  | 0 => fun _ => none
  | fuel + 1 =>
    pmap (sepList0 (tag ",") (json_value fuel) fuel)
      (fun values =>
        match values with
        | [v] => v
        | _ => .arr values)

/-- see `json_value`. -/
def key_value : Nat → MiParser (String × Value)
  | 0 => fun _ => none
  | fuel + 1 =>
    pmap
      (separated_pair (isNot ['=', '{', '}']) (charE '=')
        (buggy_gdb_list_in_result fuel))
      (fun pr => (String.mk pr.1, pr.2))

end

/-- `token` (output.rs:335-337): decimal digits. (The source calls
`str::parse::<u64>().unwrap()`; tokens are modelled as unbounded naturals,
the panic on a 20-plus-digit token is out of scope.) -/
def tokenNum : MiParser Nat :=
  pmap digit1 (fun ds => ds.foldl (fun acc c => 10 * acc + (c.toNat - '0'.toNat)) 0)

/-- `result_record` (output.rs:342-359). -/
def result_record (fuel : Nat) : MiParser Output :=
  pmap
    (pand (popt tokenNum)
      (pand (charE '^')
        (pand result_class
          (many0 (preceded (charE ',') (key_value fuel)) fuel))))
    (fun pr =>
      .result
        { token := pr.1
          «class» := pr.2.2.1
          results := .obj (to_map pr.2.2.2) })

/-- `async_kind` (output.rs:361-368). -/
def async_kind : MiParser AsyncKind :=
  alt
    [ pvalue .exec (tag "*")
    , pvalue .status (tag "+")
    , pvalue .notify (tag "=") ]

/-- `async_class` (output.rs:370-411). -/
def async_class : MiParser AsyncClass :=
  alt
    [ pvalue .running (tag "running")
    , pvalue .stopped (tag "stopped")
    , pvalue (.thread .created) (tag "thread-created")
    , pvalue (.thread .groupStarted) (tag "thread-group-started")
    , pvalue (.thread .exited) (tag "thread-exited")
    , pvalue (.thread .groupExited) (tag "thread-group-exited")
    , pvalue (.thread .selected) (tag "thread-selected")
    , pvalue .cmdParamChanged (tag "cmd-param-changed")
    , pvalue .libraryLoaded (tag "library-loaded")
    , pvalue (.breakPoint .created) (tag "breakpoint-created")
    , pvalue (.breakPoint .deleted) (tag "breakpoint-deleted")
    , pvalue (.breakPoint .modified) (tag "breakpoint-modified")
    , pmap (isNot [',']) (fun msg => .other (String.mk msg)) ]

/-- `async_record` (output.rs:418-434). -/
def async_record (fuel : Nat) : MiParser OutOfBandRecord :=
  pmap
    (pand (popt tokenNum)
      (pand async_kind
        (pand async_class
          (many0 (preceded (charE ',') (key_value fuel)) fuel))))
    (fun pr =>
      .asyncRecord pr.1 pr.2.1 pr.2.2.1 (.obj (to_map pr.2.2.2)))

/-- `stream_kind` (output.rs:436-443). -/
def stream_kind : MiParser StreamKind :=
  alt
    [ pvalue .console (tag "~")
    , pvalue .target (tag "@")
    , pvalue .log (tag "&") ]

/-- `stream_record` (output.rs:447-452). -/
def stream_record (fuel : Nat) : MiParser OutOfBandRecord :=
  pmap (pand stream_kind (string fuel))
    (fun pr => .streamRecord pr.1 pr.2)

/-- `out_of_band_record` (output.rs:455-460). -/
def out_of_band_record (fuel : Nat) : MiParser Output :=
  pmap (alt [stream_record fuel, async_record fuel]) .outOfBand

/-- `prompt` (output.rs:462-464). -/
def prompt : MiParser Output :=
  pvalue .gdbLine (tag "(gdb) ")

/-- `debug_line` (output.rs:466-468): always succeeds, consuming the whole
input (line terminator included) and carrying it verbatim. -/
def debug_line : MiParser Output := fun input =>
  some ([], .somethingElse (String.mk input))

/-- `output` (output.rs:470-479): one of the four record forms, then a
line ending. -/
def output (fuel : Nat) : MiParser Output :=
  pmap
    (pand (alt [result_record fuel, out_of_band_record fuel, prompt, debug_line])
      line_ending)
    (fun pr => pr.1)

end MiOutput

/-- `Output::parse` (output.rs:170-179): run the grammar on one line; a nom
error of any flavour becomes a textual parse error (the source's message
text is diagnostic only and is collapsed here). -/
def Output.parse (line : String) : Except String Output :=
  match MiOutput.output (line.length + 1) line.toList with
  | some (_, c) => .ok c
  | none => .error "parse error"

/-! ## The reader task's per-line behaviour (`process_output`,
output.rs:101-167): parse the line; on a parse error log and drop it;
otherwise update `is_running` and forward the record to the result pipe
or the out-of-band pipe. -/

/-- A send observed on one of the two channels feeding the session engine. -/
inductive SentEvent where
  | resultSent (r : ResultRecord)
  | oobSent (r : OutOfBandRecord)
  deriving Repr

/-- The `is_running` update of `process_output` (output.rs:126-148). -/
def stepIsRunning (isRunning : Bool) (parsed : Output) : Bool :=
  match parsed with
  | .result r =>
    match r.«class» with
    | .running => true
    | .error => false
    | _ => isRunning
  | .outOfBand (.asyncRecord _ _ .stopped _) => false
  | _ => isRunning

/-- What `process_output` forwards for one parsed line
(output.rs:126-160): result records to the result pipe, out-of-band
records to the oob pipe, the prompt nowhere, and a `SomethingElse` line as
a `target` stream record. -/
def sentEvents (parsed : Output) : List SentEvent :=
  match parsed with
  | .result r => [.resultSent r]
  | .outOfBand r => [.oobSent r]
  | .gdbLine => []
  | .somethingElse text => [.oobSent (.streamRecord .target text)]

/-- One iteration of the `process_output` loop (output.rs:109-166) on a
line read from the child's stdout: parse errors are logged and the line
dropped (`continue`); otherwise the flag is updated and the record
forwarded. -/
def processLine (isRunning : Bool) (line : String) : Bool × List SentEvent :=
  match Output.parse line with
  | .error _ => (isRunning, [])
  | .ok parsed => (stepIsRunning isRunning parsed, sentEvents parsed)

/-! ## Rust integer parsing and printing

`uN::from_str` / `uN::from_str_radix` accept an optional leading `+`
followed by one or more digits of the radix, and fail on anything else
and on overflow (modelled as `value < bound` with `bound = 2^N`).
Rendering (`Display` / `{:x}`) is plain decimal / lowercase hex with no
prefix, `0` rendered as `"0"`. -/

/-- `char::is_ascii_digit`. -/
def isDigitChar (c : Char) : Bool := c.isDigit

/-- Radix-`b` value of a digit string (most significant first). -/
def digitsVal (b : Nat) (dval : Char → Nat) (cs : List Char) : Nat :=
  cs.foldl (fun acc c => b * acc + dval c) 0

/-- `uN::from_str` (decimal) on a character list; `bound = 2^N`. -/
def rustParseNat (bound : Nat) (cs : List Char) : Option Nat :=
  let cs := if cs.head? = some '+' then cs.tail else cs
  if cs.isEmpty then none
  else if cs.all isDigitChar then
    let v := digitsVal 10 (fun c => c.toNat - '0'.toNat) cs
    if v < bound then some v else none
  else none

/-- `uN::from_str_radix(s, 16)` on a character list; `bound = 2^N`. -/
def rustParseHex (bound : Nat) (cs : List Char) : Option Nat :=
  let cs := if cs.head? = some '+' then cs.tail else cs
  if cs.isEmpty then none
  else if cs.all MiOutput.isHexDigitChar then
    let v := digitsVal 16 MiOutput.hexDigitVal cs
    if v < bound then some v else none
  else none

/-- Lowercase hex digit character for a value `< 16`. -/
def hexDigitChar (d : Nat) : Char :=
  if d < 10 then Char.ofNat ('0'.toNat + d) else Char.ofNat ('a'.toNat + (d - 10))

/-- Rust `format!("{:x}", n)`: lowercase hexadecimal, no prefix. -/
def hexChars (n : Nat) : List Char :=
  if n = 0 then ['0'] else (Nat.digits 16 n).reverse.map hexDigitChar

/-- Rust `format!("{}", n)` for an unsigned integer: decimal. -/
def decChars (n : Nat) : List Char :=
  if n = 0 then ['0']
  else (Nat.digits 10 n).reverse.map (fun d => Char.ofNat ('0'.toNat + d))

/-! ## `Address` (`src/models.rs`, lines 68-128), at the 64-bit width the
claim is about (`Address64 = Address<u64>`). -/

/-- `From<String> for Address<u64>` (models.rs:74-86), on the character
list of the string (byte slicing `&s[2..]` on the ASCII prefix `0x` is
dropping two characters). -/
def Address.fromChars (cs : List Char) : Nat :=
  let cs := if cs.take 2 = ['0', 'x'] then cs.drop 2 else cs
  match rustParseHex (2 ^ 128) cs with
  | some val => (rustParseNat (2 ^ 64) (decChars val)).getD 0
  | none => (rustParseNat (2 ^ 64) cs).getD 0

/-- `From<String> for Address<u64>`. -/
def Address.fromString (s : String) : Nat :=
  Address.fromChars s.toList

/-- `From<Address<u64>> for String` (models.rs:88-94): `format!("0x{:x}")`. -/
def Address.toString (a : Nat) : String :=
  "0x" ++ String.mk (hexChars a)

/-! ## `BreakPointNumber` and `delete_breakpoints`
(`src/mi/commands.rs`, lines 35-73 and 227-238). -/

structure BreakPointNumber where
  major : Nat
  minor : Option Nat
  deriving Repr, DecidableEq

/-- `BreakPointNumber::from_str` (commands.rs:41-63): `N` or `N.M`, each
side a decimal `usize` (64-bit); the underlying integer-parse error text
is collapsed to an opaque message. -/
def BreakPointNumber.from_str (s : String) : Except String BreakPointNumber :=
  let cs := s.toList
  match cs.findIdx? (fun c => c = '.') with
  | some dot_pos =>
    match rustParseNat (2 ^ 64) (cs.take dot_pos),
        rustParseNat (2 ^ 64) (cs.drop (dot_pos + 1)) with
    | some major, some minor => .ok { major := major, minor := some minor }
    | none, _ => .error "invalid major"
    | _, none => .error "invalid minor"
  | none =>
    match rustParseNat (2 ^ 64) cs with
    | some val => .ok { major := val, minor := none }
    | none => .error "invalid number"

/-- The order claim C6 asserts the arguments are sorted by:
lexicographic on `(major, minor)` with a missing minor before any
present minor. -/
def BreakPointNumber.claimedLt (a b : BreakPointNumber) : Bool :=
  decide (a.major < b.major) ||
    (decide (a.major = b.major) &&
      match a.minor, b.minor with
      | none, some _ => true
      | some x, some y => decide (x < y)
      | _, _ => false)

/-- All arguments parsed as breakpoint numbers, or `none` if any fails. -/
def parseAllBreakpoints : List String → Option (List BreakPointNumber)
  | [] => some []
  | s :: rest =>
    match (BreakPointNumber.from_str s).toOption, parseAllBreakpoints rest with
    | some bp, some bps => some (bp :: bps)
    | _, _ => none

/-- Is each adjacent pair strictly ascending in the claimed order? -/
def bpChainAscending : List BreakPointNumber → Bool
  | [] => true
  | [_] => true
  | a :: b :: rest => BreakPointNumber.claimedLt a b && bpChainAscending (b :: rest)

/-- Does the textual argument list parse to a strictly ascending (hence
sorted and duplicate-free) chain of breakpoint numbers in the claimed
order? -/
def claimedBreakpointOrder (args : List String) : Bool :=
  match parseAllBreakpoints args with
  | some bps => bpChainAscending bps
  | none => false

/-- Lexicographic order on character lists: the order `OsString::cmp`
induces (byte-wise lexicographic comparison of the UTF-8 encodings, which
coincides with code-point-wise lexicographic comparison). -/
def charListLe : List Char → List Char → Bool
  | [], _ => true
  | _ :: _, [] => false
  | a :: as_, b :: bs => if a = b then charListLe as_ bs else decide (a < b)

/-- The string order `Vec::sort` sorts by. -/
def strLe (a b : String) : Bool := charListLe a.toList b.toList

/-- `Vec::sort` on the argument strings: a stable sort by the `OsString`
order. A stable sort's output is determined uniquely by the comparator,
so the stable `insertionSort` models it faithfully. -/
def rustSortStrings (l : List String) : List String :=
  List.insertionSort (fun a b => strLe a b = true) l

/-- The loop of `Vec::dedup`: drop an element equal to its predecessor. -/
def dedupLoop (prev : String) : List String → List String
  | [] => []
  | x :: xs => if x = prev then dedupLoop prev xs else x :: dedupLoop x xs

/-- `Vec::dedup`: remove consecutive repeated elements. -/
def rustDedup : List String → List String
  | [] => []
  | x :: xs => x :: dedupLoop x xs

/-- `MiCommand::delete_breakpoints` (commands.rs:227-238). -/
def MiCommand.delete_breakpoints (breakpoint_numbers : List String) : MiCommand :=
  let options := rustDedup (rustSortStrings breakpoint_numbers)
  { operation := "break-delete"
    options := some options
    parameters := none }

/-! ## `MemoryMapping` parsing (`src/models.rs`, lines 386-478). -/

structure MemoryMapping where
  start_address : Nat
  end_address : Nat
  size : Nat
  offset : Nat
  permissions : Option String
  path : Option String
  deriving Repr, DecidableEq

/-- `str::split_whitespace` (split on whitespace, no empty items). -/
def splitWhitespaceAux : List Char → List Char → List String
  | [], acc => if acc.isEmpty then [] else [String.mk acc.reverse]
  | c :: rest, acc =>
    if c.isWhitespace then
      if acc.isEmpty then splitWhitespaceAux rest []
      else String.mk acc.reverse :: splitWhitespaceAux rest []
    else splitWhitespaceAux rest (c :: acc)

def rustSplitWhitespace (s : String) : List String :=
  splitWhitespaceAux s.toList []

/-- `<[T]>::first_chunk::<N>`: the first `N` elements when there are at
least `N`. -/
def firstChunk (n : Nat) (l : List α) : Option (List α) :=
  if n ≤ l.length then some (l.take n) else none

/-- `Result::ok_or`-style helper for the `.map_err(|_| msg)?` pattern. -/
def okOr (o : Option α) (msg : String) : Except String α :=
  match o with
  | some a => .ok a
  | none => .error msg

/-- `u64::from_str_radix(&s[2..], 16)` as `from_str_new`/`from_str_old`
apply it to each numeric column (the `0x` prefix is sliced off blindly). -/
def parseMappingField (s : String) : Option Nat :=
  rustParseHex (2 ^ 64) (s.toList.drop 2)

/-- `MemoryMapping::from_str_new` (models.rs:429-458). The five-element
`first_chunk` pattern is tried first and succeeds for every line of five
OR MORE columns, so the six-element branch below it is unreachable — kept
here exactly as in the source. -/
def MemoryMapping.from_str_new (line : String) : Except String MemoryMapping :=
  let parts := rustSplitWhitespace line
  match firstChunk 5 parts with
  | some [start_address, end_address, size, offset, permissions] => do
    let sa ← okOr (parseMappingField start_address) "Invalid start address"
    let ea ← okOr (parseMappingField end_address) "Invalid end address"
    let sz ← okOr (parseMappingField size) "Invalid size"
    let off ← okOr (parseMappingField offset) "Invalid offset"
    .ok { start_address := sa, end_address := ea, size := sz, offset := off
          permissions := some permissions, path := none }
  | _ =>
    match firstChunk 6 parts with
    | some [start_address, end_address, size, offset, permissions, path] => do
      let sa ← okOr (parseMappingField start_address) "Invalid start address"
      let ea ← okOr (parseMappingField end_address) "Invalid end address"
      let sz ← okOr (parseMappingField size) "Invalid size"
      let off ← okOr (parseMappingField offset) "Invalid offset"
      .ok { start_address := sa, end_address := ea, size := sz, offset := off
            permissions := some permissions, path := some path }
    | _ => .error s!"Invalid line format: {line}"

/-- `MemoryMapping::from_str_old` (models.rs:461-477): five columns, the
fifth being the path, no permissions. -/
def MemoryMapping.from_str_old (line : String) : Except String MemoryMapping :=
  let parts := rustSplitWhitespace line
  match firstChunk 5 parts with
  | some [start_address, end_address, size, offset, path] => do
    let sa ← okOr (parseMappingField start_address) "Invalid start address"
    let ea ← okOr (parseMappingField end_address) "Invalid end address"
    let sz ← okOr (parseMappingField size) "Invalid size"
    let off ← okOr (parseMappingField offset) "Invalid offset"
    .ok { start_address := sa, end_address := ea, size := sz, offset := off
          permissions := none, path := some path }
  | _ => .error s!"Invalid line format: {line}"

/-! ## `GDBManager` (`src/gdb.rs`): `close_session` and `send_command`. -/

/-- `HashMap::remove`: the removed value (if any) and the remaining map,
on an association-list model of the session registry. -/
def removeSession (sessions : List (String × α)) (sid : String) :
    Option α × List (String × α) :=
  match sessions with
  | [] => (none, [])
  | (k, v) :: rest =>
    if k = sid then (some v, rest)
    else
      let (r, rest') := removeSession rest sid
      (r, (k, v) :: rest')

/-- `GDBManager::close_session` (gdb.rs:113-126). The two awaited effects
of the present-session branch — `send_raw_command(handle, "-gdb-exit")?`
and `process.kill().await?` — are abstracted as fallible functions of the
removed handle. -/
def GDBManager.close_session (sessions : List (String × α)) (sid : String)
    (sendExit : α → Except AppError String) (kill : α → Except AppError Unit) :
    Except AppError (List (String × α)) :=
  match removeSession sessions sid with
  | (some handle, rest) => do
    let _ ← sendExit handle
    let _ ← kill handle
    .ok rest
  | (none, rest) => .ok rest

structure GDBCommandResponse where
  success : Bool
  output : String
  error : Option String
  deriving Repr, DecidableEq

/-- `str::contains(needle)`: some suffix starts with the needle. -/
def containsSubstr (haystack needle : List Char) : Bool :=
  match haystack with
  | [] => needle.isEmpty
  | _ :: rest => needle.isPrefixOf haystack || containsSubstr rest needle

/-- The literal part `^error,msg="` of the regex `\^error,msg="(.+)"`. -/
def errorRegexLiteral : List Char := '^' :: "error,msg=\"".toList

/-- Index of the last `"` in the list, if any. -/
def lastQuoteIdx : List Char → Option Nat
  | [] => none
  | c :: rest =>
    match lastQuoteIdx rest with
    | some k => some (k + 1)
    | none => if c = '"' then some 0 else none

/-- A match of `\^error,msg="(.+)"` anchored at the start of `cs`: the
literal prefix, then a greedy non-empty run of non-newline characters,
then `"` — the capture runs to the last `"` on the line. -/
def captureAt (cs : List Char) : Option (List Char) :=
  if errorRegexLiteral.isPrefixOf cs then
    let rest := cs.drop errorRegexLiteral.length
    let span := rest.takeWhile (fun c => c ≠ '\n')
    match lastQuoteIdx span with
    | some k => if 1 ≤ k then some (span.take k) else none
    | none => none
  else none

/-- `Regex::captures(output)` followed by `.get(1)`: the capture of the
leftmost position at which the whole pattern matches. -/
def errorCapture : List Char → Option String
  | [] => none
  | c :: rest =>
    match captureAt (c :: rest) with
    | some cap => some (String.mk cap)
    | none => errorCapture rest

/-- The needle of `output.contains("^error")`. -/
def errorNeedle : List Char := '^' :: "error".toList

/-- The response assembly of `GDBManager::send_command` (gdb.rs:139-161)
from the raw output collected by `send_raw_command`. -/
def GDBManager.send_command_response (output : String) : GDBCommandResponse :=
  let success := !(containsSubstr output.toList errorNeedle)
  { success := success
    output := output
    error := if !success then errorCapture output.toList else none }

/-! # Theorems -/

/-- Pushing arguments one by one is prepending a space to each and
concatenating. -/
theorem appendArgs_eq (l : List String) (s : String) :
    appendArgs s l = s ++ spaceSeparated l := by
  induction l generalizing s with
  | nil => simp [appendArgs, spaceSeparated]
  | cons x xs ih =>
    rw [appendArgs, List.foldl_cons,
      show xs.foldl (fun acc arg => acc ++ " " ++ arg) (s ++ " " ++ x)
        = appendArgs (s ++ " " ++ x) xs from rfl, ih]
    simp [spaceSeparated, String.append_assoc]

/-- C5: for every command value and token `t`, the encoded wire line is
`<t>-<operation>` when the operation is non-empty, then each option
space-separated, then the separator ` --` exactly when both the options
and the parameters exist, then each parameter space-separated, terminated
by a line break. -/
theorem C5_wire_format (cmd : MiCommand) (token : Nat) :
    cmd.writeInterpreterString token = claimedWireLine cmd token := by
  obtain ⟨op, opts, params⟩ := cmd
  cases opts <;> cases params <;>
    simp [MiCommand.writeInterpreterString, claimedWireLine, appendArgs_eq,
      spaceSeparated, String.append_assoc]

/-- C2: a call to `execute` while the session is running fails with
`GDBBusy`; nothing is written to the child's stdin, no token is consumed
(the session state is unchanged) and the result channel is untouched. -/
theorem C2_busy_rejected (st : GDBState) (command : MiCommand)
    (resultChannel : List ResultRecord) (h : st.isRunning = true) :
    GDB.execute st command resultChannel = (.error .gdbBusy, st, resultChannel) := by
  simp [GDB.execute, h]

/-- C2 witness: a concrete running session rejects a concrete command. -/
theorem C2_busy_rejected_witness :
    GDB.execute { isRunning := true, currentCommandToken := 5, writtenStdin := [] }
      MiCommand.empty []
      = (.error .gdbBusy,
        { isRunning := true, currentCommandToken := 5, writtenStdin := [] }, []) :=
  C2_busy_rejected _ _ _ rfl

/-- C1 counterexample: a result record with no token, delivered for a
command whose operation is non-empty (`thread-info`), makes `execute`
fail with `GDBError` — not `InvalidArgument` as the claim states. -/
theorem C1_counterexample :
    (GDB.execute { isRunning := false, currentCommandToken := 0, writtenStdin := [] }
        (MiCommand.thread_info none)
        [{ token := none, «class» := .done, results := .obj [] }]).1
      = .error (.gdbError "No command token, expecting 0") ∧
    exceptIsInvalidArgument
      (GDB.execute { isRunning := false, currentCommandToken := 0, writtenStdin := [] }
        (MiCommand.thread_info none)
        [{ token := none, «class» := .done, results := .obj [] }]).1 = false := by
  constructor <;> rfl

/-- C1 amended: the result delivered to `execute` is returned when its
token equals the command token, or when it has no token and the operation
is empty (a flush); a present but mismatched token fails with
`InvalidArgument`; a missing token with a non-empty operation fails with
`GDBError`. -/
theorem C1_token_matching (op : String) (commandToken : Nat) (record : ResultRecord) :
    (GDB.matchResultToken op commandToken record = .ok record ↔
      (record.token = some commandToken ∨ (record.token = none ∧ op = ""))) ∧
    (exceptIsInvalidArgument (GDB.matchResultToken op commandToken record) = true ↔
      ∃ t, record.token = some t ∧ t ≠ commandToken) ∧
    (exceptIsGDBError (GDB.matchResultToken op commandToken record) = true ↔
      (record.token = none ∧ op ≠ "")) := by
  obtain ⟨tok, cls, res⟩ := record
  cases tok with
  | none =>
    by_cases hop : op = "" <;>
      simp [GDB.matchResultToken, hop, exceptIsInvalidArgument, exceptIsGDBError,
        AppError.isInvalidArgument, AppError.isGDBError]
  | some t =>
    by_cases ht : t = commandToken <;>
      simp [GDB.matchResultToken, ht, exceptIsInvalidArgument, exceptIsGDBError,
        AppError.isInvalidArgument, AppError.isGDBError]

/-- C4: the reader task's `is_running` update — true after a `running`
result record, false after an `error` result record, false after a
`stopped` async record, whatever the previous value was. -/
theorem C4_is_running_reflection (running : Bool) (tok : Option Nat)
    (results : Value) (kind : AsyncKind) :
    stepIsRunning running (.result { token := tok, «class» := .running, results := results })
        = true ∧
    stepIsRunning running (.result { token := tok, «class» := .error, results := results })
        = false ∧
    stepIsRunning running (.outOfBand (.asyncRecord tok kind .stopped results)) = false := by
  refine ⟨rfl, rfl, ?_⟩
  cases kind <;> rfl

/-- C8: a six-column mapping line in the `with permissions` layout parses
with `path = None`: the five-column `first_chunk` pattern of
`from_str_new` already matches any line of five or more columns, so the
six-column branch (which would set the path) is unreachable. -/
theorem C8_six_column_path_dropped :
    MemoryMapping.from_str_new "0x1000 0x2000 0x1000 0x0 r-xp /bin/cat"
      = .ok { start_address := 0x1000, end_address := 0x2000, size := 0x1000,
              offset := 0, permissions := some "r-xp", path := none } := by
  rfl

/-- Inverting nom `map`. -/
theorem pmap_eq_some {α β : Type} {p : MiParser α} {f : α → β}
    {input rest : List Char} {b : β}
    (h : MiOutput.pmap p f input = some (rest, b)) :
    ∃ a, p input = some (rest, a) ∧ b = f a := by
  unfold MiOutput.pmap at h
  rw [Option.map_eq_some'] at h
  obtain ⟨⟨r, a⟩, hp, hba⟩ := h
  simp only [Prod.mk.injEq] at hba
  exact ⟨a, by rw [hba.1] at hp; exact hp, hba.2.symm⟩

/-- Inverting nom sequencing. -/
theorem pand_eq_some {α β : Type} {p : MiParser α} {q : MiParser β}
    {input rest : List Char} {ab : α × β}
    (h : MiOutput.pand p q input = some (rest, ab)) :
    ∃ mid, p input = some (mid, ab.1) ∧ q mid = some (rest, ab.2) := by
  unfold MiOutput.pand at h
  rw [Option.bind_eq_some] at h
  obtain ⟨⟨mid, a⟩, hp, hmap⟩ := h
  rw [Option.map_eq_some'] at hmap
  obtain ⟨⟨rest', b⟩, hq, hba⟩ := hmap
  simp only [Prod.mk.injEq] at hba
  obtain ⟨hr, hab⟩ := hba
  subst hr hab
  exact ⟨mid, hp, hq⟩

/-- Unfolding one alternative of nom `alt`. -/
theorem alt_cons {α : Type} (p : MiParser α) (ps : List (MiParser α))
    (input : List Char) :
    MiOutput.alt (p :: ps) input
      = match p input with
        | some r => some r
        | none => MiOutput.alt ps input := rfl

/-- `result_record` only ever produces a result-record output. -/
theorem result_record_shape {fuel : Nat} {input rest : List Char} {o : Output}
    (h : MiOutput.result_record fuel input = some (rest, o)) :
    ∃ r, o = Output.result r := by
  obtain ⟨a, -, ha⟩ := pmap_eq_some h
  exact ⟨_, ha⟩

/-- `out_of_band_record` only ever produces an out-of-band output. -/
theorem out_of_band_record_shape {fuel : Nat} {input rest : List Char} {o : Output}
    (h : MiOutput.out_of_band_record fuel input = some (rest, o)) :
    ∃ r, o = Output.outOfBand r := by
  obtain ⟨a, -, ha⟩ := pmap_eq_some h
  exact ⟨_, ha⟩

/-- `prompt` only ever produces the prompt sentinel. -/
theorem prompt_shape {input rest : List Char} {o : Output}
    (h : MiOutput.prompt input = some (rest, o)) : o = Output.gdbLine := by
  unfold MiOutput.prompt MiOutput.pvalue at h
  obtain ⟨a, -, ha⟩ := pmap_eq_some h
  exact ha

/-- C3: the line `hello` does not parse as any record, and the reader
drops it: `Output::parse` fails (so `process_output` logs the parse error
and `continue`s) and no event at all is forwarded — in particular no
`target`-kind stream record carrying the line. In fact no input line can
ever surface as a `SomethingElse` stream event: `debug_line` consumes the
whole line including its terminator, so the subsequent mandatory
`line_ending` match fails. -/
theorem C3_unparseable_line_dropped :
    Output.parse "hello\n" = .error "parse error" ∧
    processLine false "hello\n" = (false, []) ∧
    ∀ (line text : String), Output.parse line ≠ .ok (.somethingElse text) := by
  refine ⟨rfl, rfl, ?_⟩
  intro line text h
  unfold Output.parse at h
  cases ho : MiOutput.output (line.length + 1) line.toList with
  | none => rw [ho] at h; simp at h
  | some rc =>
    obtain ⟨rest, c⟩ := rc
    rw [ho] at h
    simp only [Except.ok.injEq] at h
    subst h
    obtain ⟨⟨o1, u⟩, hpand, hfst⟩ := pmap_eq_some ho
    simp only at hfst
    obtain ⟨mid, halt, hle⟩ := pand_eq_some hpand
    simp only at halt hle
    rw [alt_cons] at halt
    cases h1 : MiOutput.result_record (line.length + 1) line.toList with
    | some r =>
      rw [h1] at halt
      simp only [Option.some.injEq] at halt
      obtain ⟨r1, hr1⟩ := result_record_shape (halt ▸ h1)
      rw [← hfst] at hr1
      exact Output.noConfusion hr1
    | none =>
      rw [h1, alt_cons] at halt
      cases h2 : MiOutput.out_of_band_record (line.length + 1) line.toList with
      | some r =>
        rw [h2] at halt
        simp only [Option.some.injEq] at halt
        obtain ⟨r2, hr2⟩ := out_of_band_record_shape (halt ▸ h2)
        rw [← hfst] at hr2
        exact Output.noConfusion hr2
      | none =>
        rw [h2, alt_cons] at halt
        cases h3 : MiOutput.prompt line.toList with
        | some r =>
          rw [h3] at halt
          simp only [Option.some.injEq] at halt
          have hr3 := prompt_shape (halt ▸ h3)
          rw [← hfst] at hr3
          exact Output.noConfusion hr3
        | none =>
          rw [h3, alt_cons] at halt
          simp only [MiOutput.alt, List.foldr, MiOutput.debug_line,
            Option.some.injEq, Prod.mk.injEq] at halt
          obtain ⟨hmid, -⟩ := halt
          rw [← hmid] at hle
          exact Option.noConfusion hle

/-- C6 counterexample: for the input list `["9", "10"]` the issued
`break-delete` argument list is `["10", "9"]` — the strings are sorted
lexicographically, which is not ascending in the breakpoint-number order
(10 before 9). -/
theorem C6_counterexample :
    (MiCommand.delete_breakpoints ["9", "10"]).options = some ["10", "9"] ∧
    claimedBreakpointOrder ["10", "9"] = false := by
  constructor <;> decide

/-- Removing an absent key from the registry leaves it unchanged. -/
theorem removeSession_absent {α : Type} (sessions : List (String × α)) (sid : String)
    (h : ∀ p ∈ sessions, p.1 ≠ sid) :
    removeSession sessions sid = (none, sessions) := by
  induction sessions with
  | nil => rfl
  | cons kv rest ih =>
    obtain ⟨k, v⟩ := kv
    have hk : k ≠ sid := h (k, v) (by simp)
    simp only [removeSession, if_neg hk]
    rw [ih (fun p hp => h p (List.mem_cons_of_mem _ hp))]

/-- C9: closing a session whose identifier is not in the registry
returns `Ok` (not `NotFound`), sends nothing to any child, and leaves the
registry exactly as it was. -/
theorem C9_close_absent_session {α : Type} (sessions : List (String × α))
    (sid : String) (sendExit : α → Except AppError String)
    (kill : α → Except AppError Unit)
    (h : ∀ p ∈ sessions, p.1 ≠ sid) :
    GDBManager.close_session sessions sid sendExit kill = .ok sessions := by
  unfold GDBManager.close_session
  rw [removeSession_absent sessions sid h]

/-- C9 witness: closing the unknown id `b` on a concrete one-entry
registry succeeds and keeps the registry. -/
theorem C9_close_absent_session_witness :
    GDBManager.close_session [("a", 1)] "b" (fun _ => .ok "") (fun _ => .ok ())
      = .ok [("a", 1)] :=
  C9_close_absent_session [("a", 1)] "b" _ _ (by decide)

/-- `str::contains` finds the needle exactly when some suffix starts with
it. -/
theorem containsSubstr_iff (haystack needle : List Char) :
    containsSubstr haystack needle = true ↔
      ∃ i, needle.isPrefixOf (haystack.drop i) = true := by
  induction haystack with
  | nil =>
    constructor
    · intro h
      exact ⟨0, by cases needle <;> simp_all [containsSubstr, List.isPrefixOf]⟩
    · rintro ⟨i, hi⟩
      cases needle <;> simp_all [containsSubstr, List.isPrefixOf]
  | cons c rest ih =>
    constructor
    · intro h
      rw [containsSubstr, Bool.or_eq_true] at h
      rcases h with h | h
      · exact ⟨0, h⟩
      · obtain ⟨i, hi⟩ := ih.mp h
        exact ⟨i + 1, hi⟩
    · rintro ⟨i, hi⟩
      rw [containsSubstr, Bool.or_eq_true]
      cases i with
      | zero => exact Or.inl hi
      | succ j => exact Or.inr (ih.mpr ⟨j, hi⟩)

/-- C10: the response of `send_command` has `success = true` exactly when
the raw collected output nowhere contains the substring `^error`; when
`success` is false the `error` field is the first capture of the pattern
`\^error,msg="(.+)"` on the output (absent when the pattern does not
match), and when `success` is true the `error` field is absent. -/
theorem C10_send_command_response (output : String) :
    ((GDBManager.send_command_response output).success = true ↔
      ¬ ∃ i, errorNeedle.isPrefixOf (output.toList.drop i) = true) ∧
    ((GDBManager.send_command_response output).success = false →
      (GDBManager.send_command_response output).error = errorCapture output.toList) ∧
    ((GDBManager.send_command_response output).success = true →
      (GDBManager.send_command_response output).error = none) := by
  refine ⟨?_, ?_, ?_⟩
  · rw [← containsSubstr_iff]
    simp [GDBManager.send_command_response]
  · intro h
    have hc : containsSubstr output.data errorNeedle = true := by
      simpa [GDBManager.send_command_response] using h
    simp [GDBManager.send_command_response, hc]
  · intro h
    have hc : containsSubstr output.data errorNeedle = false := by
      simpa [GDBManager.send_command_response] using h
    simp [GDBManager.send_command_response, hc]

/-- C10 witness: a concrete output containing an `^error` record yields
`success = false` with the captured message, and a concrete clean output
yields `success = true`. -/
theorem C10_send_command_response_witness :
    (GDBManager.send_command_response "^error,msg=\"boom\"\n(gdb) \n").success
        = false ∧
    (GDBManager.send_command_response "^error,msg=\"boom\"\n(gdb) \n").error
        = errorCapture ("^error,msg=\"boom\"\n(gdb) \n" : String).toList ∧
    errorCapture ("^error,msg=\"boom\"\n(gdb) \n" : String).toList = some "boom" ∧
    (GDBManager.send_command_response "^done\n").success = true :=
  ⟨by decide,
    (C10_send_command_response "^error,msg=\"boom\"\n(gdb) \n").2.1 (by decide),
    by decide,
    by decide⟩

/-- Base-`b` digit evaluation of the rendered (most-significant-first)
digit characters inverts `Nat.digits`. -/
theorem foldl_digits_eq_ofDigits (b : Nat) (dval : Char → Nat) (ch : Nat → Char)
    (L : List Nat) (h : ∀ d ∈ L, dval (ch d) = d) :
    (L.reverse.map ch).foldl (fun acc c => b * acc + dval c) 0 = Nat.ofDigits b L := by
  induction L with
  | nil => simp [Nat.ofDigits]
  | cons d L ih =>
    rw [List.reverse_cons, List.map_append, List.foldl_append]
    simp only [List.map_cons, List.map_nil, List.foldl_cons, List.foldl_nil]
    rw [ih (fun d hd => h d (List.mem_cons_of_mem _ hd)), h d (List.mem_cons_self d L),
      Nat.ofDigits_cons]
    ring

/-- `hexDigitVal` inverts `hexDigitChar` on digit values. -/
theorem hexDigitVal_hexDigitChar {d : Nat} (h : d < 16) :
    MiOutput.hexDigitVal (hexDigitChar d) = d := by
  interval_cases d <;> decide

/-- `hexDigitChar` produces hexadecimal digit characters. -/
theorem isHexDigitChar_hexDigitChar {d : Nat} (h : d < 16) :
    MiOutput.isHexDigitChar (hexDigitChar d) = true := by
  interval_cases d <;> decide

/-- Decimal digit characters evaluate back to their value. -/
theorem decDigitVal_decDigitChar {d : Nat} (h : d < 10) :
    (Char.ofNat ('0'.toNat + d)).toNat - '0'.toNat = d := by
  interval_cases d <;> decide

/-- Decimal digit characters are digits. -/
theorem isDigitChar_decDigitChar {d : Nat} (h : d < 10) :
    isDigitChar (Char.ofNat ('0'.toNat + d)) = true := by
  interval_cases d <;> decide

/-- The hex rendering of `n` evaluates back to `n`. -/
theorem digitsVal_hexChars (n : Nat) :
    digitsVal 16 MiOutput.hexDigitVal (hexChars n) = n := by
  unfold hexChars digitsVal
  by_cases h : n = 0
  · subst h; decide
  · rw [if_neg h,
      foldl_digits_eq_ofDigits 16 _ _ _
        (fun d hd => hexDigitVal_hexDigitChar (Nat.digits_lt_base (by norm_num) hd)),
      Nat.ofDigits_digits]

/-- The decimal rendering of `n` evaluates back to `n`. -/
theorem digitsVal_decChars (n : Nat) :
    digitsVal 10 (fun c => c.toNat - '0'.toNat) (decChars n) = n := by
  unfold decChars digitsVal
  by_cases h : n = 0
  · subst h; decide
  · rw [if_neg h,
      foldl_digits_eq_ofDigits 10 _ _ _
        (fun d hd => decDigitVal_decDigitChar (Nat.digits_lt_base (by norm_num) hd)),
      Nat.ofDigits_digits]

/-- `hexChars` is never empty. -/
theorem hexChars_ne_nil (n : Nat) : hexChars n ≠ [] := by
  unfold hexChars
  by_cases h : n = 0
  · simp [h]
  · simp [h, Nat.digits_ne_nil_iff_ne_zero.mpr h]

/-- Every character of `hexChars` is a hexadecimal digit. -/
theorem hexChars_all_hex (n : Nat) :
    (hexChars n).all MiOutput.isHexDigitChar = true := by
  unfold hexChars
  by_cases h : n = 0
  · subst h; decide
  · rw [if_neg h, List.all_eq_true]
    intro c hc
    rw [List.mem_map] at hc
    obtain ⟨d, hd, rfl⟩ := hc
    rw [List.mem_reverse] at hd
    exact isHexDigitChar_hexDigitChar (Nat.digits_lt_base (by norm_num) hd)

/-- `decChars` is never empty. -/
theorem decChars_ne_nil (n : Nat) : decChars n ≠ [] := by
  unfold decChars
  by_cases h : n = 0
  · simp [h]
  · simp [h, Nat.digits_ne_nil_iff_ne_zero.mpr h]

/-- Every character of `decChars` is a decimal digit. -/
theorem decChars_all_digit (n : Nat) : (decChars n).all isDigitChar = true := by
  unfold decChars
  by_cases h : n = 0
  · subst h; decide
  · rw [if_neg h, List.all_eq_true]
    intro c hc
    rw [List.mem_map] at hc
    obtain ⟨d, hd, rfl⟩ := hc
    rw [List.mem_reverse] at hd
    exact isDigitChar_decDigitChar (Nat.digits_lt_base (by norm_num) hd)

/-- A nonempty all-hex character list parses under `from_str_radix(_, 16)`
to its hex value when in bounds. -/
theorem rustParseHex_eq {bound : Nat} {cs : List Char} (hne : cs ≠ [])
    (hall : cs.all MiOutput.isHexDigitChar = true)
    (hb : digitsVal 16 MiOutput.hexDigitVal cs < bound) :
    rustParseHex bound cs = some (digitsVal 16 MiOutput.hexDigitVal cs) := by
  have hplus : ¬ cs.head? = some '+' := by
    cases cs with
    | nil => simp
    | cons c cs' =>
      rw [List.all_cons, Bool.and_eq_true] at hall
      intro hc
      rw [List.head?_cons, Option.some.injEq] at hc
      subst hc
      exact absurd hall.1 (by decide)
  unfold rustParseHex
  rw [if_neg hplus, if_neg (by simp [hne]), if_pos hall, if_pos hb]

/-- A nonempty all-decimal character list parses under `from_str` to its
decimal value when in bounds. -/
theorem rustParseNat_eq {bound : Nat} {cs : List Char} (hne : cs ≠ [])
    (hall : cs.all isDigitChar = true)
    (hb : digitsVal 10 (fun c => c.toNat - '0'.toNat) cs < bound) :
    rustParseNat bound cs
      = some (digitsVal 10 (fun c => c.toNat - '0'.toNat) cs) := by
  have hplus : ¬ cs.head? = some '+' := by
    cases cs with
    | nil => simp
    | cons c cs' =>
      rw [List.all_cons, Bool.and_eq_true] at hall
      intro hc
      rw [List.head?_cons, Option.some.injEq] at hc
      subst hc
      exact absurd hall.1 (by decide)
  unfold rustParseNat
  rw [if_neg hplus, if_neg (by simp [hne]), if_pos hall, if_pos hb]

/-- Decimal digits are hexadecimal digits. -/
theorem isHexDigitChar_of_isDigitChar {c : Char} (h : isDigitChar c = true) :
    MiOutput.isHexDigitChar c = true := by
  unfold isDigitChar at h
  simp [MiOutput.isHexDigitChar, h]

/-- C7: displaying a 64-bit address as `0x%x` and parsing the string back
returns the address, and a digit string without the `0x` prefix parses as
hexadecimal (stated for values that fit the 64-bit width). -/
theorem C7_address_roundtrip :
    (∀ a : Nat, a < 2 ^ 64 → Address.fromString (Address.toString a) = a) ∧
    (∀ s : String, s.toList ≠ [] → s.toList.all isDigitChar = true →
      digitsVal 16 MiOutput.hexDigitVal s.toList < 2 ^ 64 →
      Address.fromString s = digitsVal 16 MiOutput.hexDigitVal s.toList) := by
  constructor
  · intro a ha
    have hlt : digitsVal 16 MiOutput.hexDigitVal (hexChars a) < 2 ^ 128 := by
      rw [digitsVal_hexChars]
      exact lt_trans ha (by norm_num)
    unfold Address.fromString Address.toString
    rw [show ("0x" ++ String.mk (hexChars a)).toList = '0' :: 'x' :: hexChars a from
      String.data_append _ _]
    unfold Address.fromChars
    rw [if_pos (show ('0' :: 'x' :: hexChars a).take 2 = ['0', 'x'] from rfl)]
    simp only [List.drop_succ_cons, List.drop_zero]
    rw [rustParseHex_eq (hexChars_ne_nil a) (hexChars_all_hex a) hlt]
    show (rustParseNat (2 ^ 64)
      (decChars (digitsVal 16 MiOutput.hexDigitVal (hexChars a)))).getD 0 = a
    rw [digitsVal_hexChars]
    rw [rustParseNat_eq (decChars_ne_nil a) (decChars_all_digit a)
      (by rw [digitsVal_decChars]; exact ha)]
    rw [digitsVal_decChars]
    rfl
  · intro s hne hdig hb
    have htake : ¬ s.toList.take 2 = ['0', 'x'] := by
      cases hcs : s.toList with
      | nil => exact absurd hcs hne
      | cons c1 rest =>
        cases rest with
        | nil => simp
        | cons c2 rest' =>
          rw [hcs, List.all_cons, List.all_cons] at hdig
          simp only [Bool.and_eq_true] at hdig
          have hx : c2 ≠ 'x' := by
            intro h
            rw [h] at hdig
            exact absurd hdig.2.1 (by decide)
          simp [hx]
    unfold Address.fromString Address.fromChars
    rw [if_neg htake]
    show (match rustParseHex (2 ^ 128) s.toList with
      | some val => (rustParseNat (2 ^ 64) (decChars val)).getD 0
      | none => (rustParseNat (2 ^ 64) s.toList).getD 0)
      = digitsVal 16 MiOutput.hexDigitVal s.toList
    rw [rustParseHex_eq hne
      (by rw [List.all_eq_true] at hdig ⊢
          exact fun c hc => isHexDigitChar_of_isDigitChar (hdig c hc))
      (lt_trans hb (by norm_num))]
    show (rustParseNat (2 ^ 64)
      (decChars (digitsVal 16 MiOutput.hexDigitVal s.toList))).getD 0 = _
    rw [rustParseNat_eq (decChars_ne_nil _) (decChars_all_digit _)
      (by rw [digitsVal_decChars]; exact hb)]
    rw [digitsVal_decChars]
    rfl

/-- C7 witness: the concrete address `0xbeef` round-trips, and the digit
string `"10"` parses as hexadecimal 16. -/
theorem C7_address_roundtrip_witness :
    Address.fromString (Address.toString 48879) = 48879 ∧
    Address.fromString "10" = digitsVal 16 MiOutput.hexDigitVal ("10" : String).toList ∧
    digitsVal 16 MiOutput.hexDigitVal ("10" : String).toList = 16 :=
  ⟨C7_address_roundtrip.1 48879 (by norm_num),
    C7_address_roundtrip.2 "10" (by decide) (by decide) (by decide),
    by decide⟩

/-- `charListLe` is total. -/
theorem charListLe_total : ∀ as_ bs : List Char,
    charListLe as_ bs = true ∨ charListLe bs as_ = true := by
  intro as_
  induction as_ with
  | nil => intro bs; exact Or.inl rfl
  | cons a at_ ih =>
    intro bs
    cases bs with
    | nil => exact Or.inr rfl
    | cons b bt =>
      by_cases hab : a = b
      · subst hab
        rcases ih bt with h | h
        · exact Or.inl (by simp [charListLe, h])
        · exact Or.inr (by simp [charListLe, h])
      · rcases lt_or_gt_of_ne hab with h | h
        · exact Or.inl (by simp [charListLe, hab, h])
        · exact Or.inr (by simp [charListLe, Ne.symm hab, h])

/-- `charListLe` is transitive. -/
theorem charListLe_trans : ∀ {as_ bs cs : List Char},
    charListLe as_ bs = true → charListLe bs cs = true →
    charListLe as_ cs = true := by
  intro as_
  induction as_ with
  | nil => intro bs cs _ _; rfl
  | cons a at_ ih =>
    intro bs cs h1 h2
    cases bs with
    | nil => simp [charListLe] at h1
    | cons b bt =>
      cases cs with
      | nil => simp [charListLe] at h2
      | cons c ct =>
        simp only [charListLe] at h1 h2 ⊢
        by_cases hab : a = b
        · subst hab
          rw [if_pos rfl] at h1
          by_cases hbc : a = c
          · subst hbc
            rw [if_pos rfl] at h2 ⊢
            exact ih h1 h2
          · rw [if_neg hbc] at h2 ⊢
            exact h2
        · rw [if_neg hab, decide_eq_true_eq] at h1
          by_cases hbc : b = c
          · subst hbc
            rw [if_neg hab, decide_eq_true_eq]
            exact h1
          · rw [if_neg hbc, decide_eq_true_eq] at h2
            have hac : a < c := lt_trans h1 h2
            rw [if_neg (ne_of_lt hac), decide_eq_true_eq]
            exact hac

/-- `charListLe` is antisymmetric. -/
theorem charListLe_antisymm : ∀ {as_ bs : List Char},
    charListLe as_ bs = true → charListLe bs as_ = true → as_ = bs := by
  intro as_
  induction as_ with
  | nil =>
    intro bs h1 h2
    cases bs with
    | nil => rfl
    | cons b bt => simp [charListLe] at h2
  | cons a at_ ih =>
    intro bs h1 h2
    cases bs with
    | nil => simp [charListLe] at h1
    | cons b bt =>
      simp only [charListLe] at h1 h2
      by_cases hab : a = b
      · subst hab
        rw [if_pos rfl] at h1 h2
        rw [ih h1 h2]
      · rw [if_neg hab, decide_eq_true_eq] at h1
        rw [if_neg (Ne.symm hab), decide_eq_true_eq] at h2
        exact absurd h2 (lt_asymm h1)

/-- `strLe` is total. -/
theorem strLe_total (a b : String) : strLe a b = true ∨ strLe b a = true :=
  charListLe_total a.toList b.toList

/-- `strLe` is transitive. -/
theorem strLe_trans {a b c : String} (h1 : strLe a b = true)
    (h2 : strLe b c = true) : strLe a c = true :=
  charListLe_trans h1 h2

/-- `strLe` is antisymmetric. -/
theorem strLe_antisymm {a b : String} (h1 : strLe a b = true)
    (h2 : strLe b a = true) : a = b :=
  String.ext (charListLe_antisymm h1 h2)

/-- `dedupLoop` does not change membership, counting the already-emitted
head. -/
theorem mem_cons_dedupLoop (prev : String) (l : List String) (x : String) :
    x ∈ prev :: dedupLoop prev l ↔ x ∈ prev :: l := by
  induction l generalizing prev with
  | nil => simp [dedupLoop]
  | cons y ys ih =>
    by_cases hy : y = prev
    · subst hy
      rw [dedupLoop, if_pos rfl]
      rw [ih y]
      simp
    · rw [dedupLoop, if_neg hy]
      constructor
      · intro h
        rcases List.mem_cons.mp h with h | h
        · exact List.mem_cons.mpr (Or.inl h)
        · rcases List.mem_cons.mp ((ih y).mp h) with h | h
          · simp [h]
          · simp [h]
      · intro h
        rcases List.mem_cons.mp h with h | h
        · exact List.mem_cons.mpr (Or.inl h)
        · exact List.mem_cons.mpr (Or.inr ((ih y).mpr h))

/-- On a sorted run, `dedupLoop` yields a strictly ascending (sorted and
duplicate-free) run. -/
theorem dedupLoop_sorted (prev : String) (l : List String)
    (h : (prev :: l).Sorted (fun a b => strLe a b = true)) :
    (prev :: dedupLoop prev l).Sorted
      (fun a b => strLe a b = true ∧ a ≠ b) := by
  induction l generalizing prev with
  | nil => simp [dedupLoop]
  | cons y ys ih =>
    rw [List.sorted_cons] at h
    obtain ⟨hall, hsorted⟩ := h
    by_cases hy : y = prev
    · subst hy
      rw [dedupLoop, if_pos rfl]
      apply ih
      rw [List.sorted_cons]
      rw [List.sorted_cons] at hsorted
      exact ⟨fun b hb => hall b (List.mem_cons_of_mem _ hb), hsorted.2⟩
    · rw [dedupLoop, if_neg hy]
      have hys := ih y hsorted
      rw [List.sorted_cons]
      refine ⟨?_, hys⟩
      intro b hb
      have hby : b ∈ y :: ys := (mem_cons_dedupLoop y ys b).mp hb
      have hpb : strLe prev b = true := hall b hby
      refine ⟨hpb, ?_⟩
      intro hcontra
      subst hcontra
      rcases List.mem_cons.mp hby with h | h
      · exact hy h.symm
      · rw [List.sorted_cons] at hsorted
        exact hy (strLe_antisymm (hsorted.1 prev h)
          (hall y (List.mem_cons_self y ys)))

/-- `rustDedup` preserves membership. -/
theorem mem_rustDedup (l : List String) (x : String) :
    x ∈ rustDedup l ↔ x ∈ l := by
  cases l with
  | nil => simp [rustDedup]
  | cons y ys => exact mem_cons_dedupLoop y ys x

/-- `rustDedup` of a sorted list is strictly ascending. -/
theorem rustDedup_sorted (l : List String)
    (h : l.Sorted (fun a b => strLe a b = true)) :
    (rustDedup l).Sorted (fun a b => strLe a b = true ∧ a ≠ b) := by
  cases l with
  | nil => simp [rustDedup]
  | cons y ys => exact dedupLoop_sorted y ys h

/-- C6 amended: `delete_breakpoints` issues `break-delete` with an
argument list that is sorted by the lexicographic `OsString` order
(`strLe`), duplicate-free, and has exactly the members of the input —
not sorted by the `(major, minor)` breakpoint-number order. -/
theorem C6_delete_breakpoints_sorted_dedup (input : List String) :
    (MiCommand.delete_breakpoints input).operation = "break-delete" ∧
    ∃ l, (MiCommand.delete_breakpoints input).options = some l ∧
      l.Sorted (fun a b => strLe a b = true) ∧ l.Nodup ∧
      ∀ x, x ∈ l ↔ x ∈ input := by
  refine ⟨rfl, rustDedup (rustSortStrings input), rfl, ?_, ?_, ?_⟩
  · haveI : IsTotal String (fun a b => strLe a b = true) := ⟨strLe_total⟩
    haveI : IsTrans String (fun a b => strLe a b = true) :=
      ⟨fun _ _ _ => strLe_trans⟩
    exact (rustDedup_sorted _
      (List.sorted_insertionSort _ input)).imp (fun h => h.1)
  · haveI : IsTotal String (fun a b => strLe a b = true) := ⟨strLe_total⟩
    haveI : IsTrans String (fun a b => strLe a b = true) :=
      ⟨fun _ _ _ => strLe_trans⟩
    exact List.Pairwise.imp (fun h => h.2)
      (rustDedup_sorted _ (List.sorted_insertionSort _ input))
  · intro x
    rw [mem_rustDedup]
    exact (List.perm_insertionSort _ input).mem_iff

end McpServerGdb
